import Mathlib

/-!
Verification of the FretStudio music-theory engine specification against the
repository's code.

The frontend sources (`FretStudioFrontend/src`) are embedded directly:
`noteUtils.ts` (note tables, `unformatNote`, `formatNote`, `getNoteNames`,
`getNoteClass`), the scale editor's `getNotesFromIntervals`, and the
flag-based `Fretboard` renderer's per-fret class computation.

The backend engine (`FretStudioBackend.py`) is not present in the source
tree (the project file lists it but the Python module itself is absent), so
the NoteSpace/ChordResolver/VoicingValidator operations that only live there
(`transpose`, `parse`, `diatonicChords`, `validate`) are modelled from the
specification's own words; each such definition is marked below.
-/

namespace FretStudio

/-- Embedded from noteUtils.ts: the canonical sharp-preferred note table. -/
def SHARP_NOTES : List String :=
  ["C", "C#", "D", "D#", "E", "F"] ++ ["F#", "G", "G#", "A", "A#", "B"]

/-- Embedded from noteUtils.ts: the canonical flat-preferred note table. -/
def FLAT_NOTES : List String :=
  ["C", "Db", "D", "Eb", "E", "F"] ++ ["Gb", "G", "Ab", "A", "Bb", "B"]

/-- Embedded from noteUtils.ts: the sharp-to-flat spelling map. -/
def SHARP_TO_FLAT : List (String × String) :=
  [("C#", "Db"), ("D#", "Eb"), ("F#", "Gb"), ("G#", "Ab"), ("A#", "Bb")]

/-- Embedded from noteUtils.ts: the flat-to-sharp spelling map. -/
def FLAT_TO_SHARP : List (String × String) :=
  [("Db", "C#"), ("Eb", "D#"), ("Gb", "F#"), ("Ab", "G#"), ("Bb", "A#")]

/-- Embedded from ScaleEditor (src/unnamed/part_012): the 12-note table used
by `getNotesFromIntervals`, identical in content to SHARP_NOTES. -/
def NOTES : List String :=
  ["C", "C#", "D", "D#", "E", "F"] ++ ["F#", "G", "G#", "A", "A#", "B"]

/-- Embedded from AccidentalTypeContext.tsx: the accidental preference. -/
inductive AccidentalType
| sharps
| flats
deriving DecidableEq, Repr

/-- Embedded from noteUtils.ts `unformatNote`: converts a flat spelling to
its sharp-based equivalent, leaving every other string unchanged
(the JS object lookup with fallback is the association-list lookup). -/
def unformatNote (note : String) : String :=
  (FLAT_TO_SHARP.lookup note).getD note

/-- Embedded from noteUtils.ts `formatNote`: rewrites a sharp spelling to its
flat spelling when the preference is flats and the note is a key of
SHARP_TO_FLAT; otherwise returns the note unchanged. -/
def formatNote (note : String) (accidentalType : AccidentalType) : String :=
  match accidentalType, SHARP_TO_FLAT.lookup note with
  | AccidentalType.flats, some flat => flat
  | _, _ => note

/-- Embedded from noteUtils.ts `getNoteNames`: the display table for a
preference. -/
def getNoteNames (accidentalType : AccidentalType) : List String :=
  match accidentalType with
  | AccidentalType.flats => FLAT_NOTES
  | AccidentalType.sharps => SHARP_NOTES

/-- Embedded from noteUtils.ts `getNoteClass`, as the list of CSS classes
pushed, before joining with a space: scale-root is tested first, then
chord-root, and membership in `validNotes` adds in-scale. -/
def getNoteClassList (note : String) (validNotes : List String)
    (scaleRootNote chordRootNote : Option String) : List String :=
  let isScaleRoot : Bool := scaleRootNote == some note
  let isChordRoot : Bool := chordRootNote == some note
  let isInScaleOrChord : Bool := validNotes.contains note
  (if isScaleRoot then ["scale-root"]
   else if isChordRoot then ["chord-root"]
   else []) ++
  (if isInScaleOrChord then ["in-scale"] else [])

/-- Embedded from noteUtils.ts `getNoteClass`: the joined class string. -/
def getNoteClass (note : String) (validNotes : List String)
    (scaleRootNote chordRootNote : Option String) : String :=
  String.intercalate " " (getNoteClassList note validNotes scaleRootNote chordRootNote)

/-- Embedded from ScaleEditor (src/unnamed/part_012, lines 238-242)
`getNotesFromIntervals`: looks the root up in NOTES (JS indexOf, `none`
standing for -1), returns [] when absent, and otherwise maps each interval
to the note at (rootIndex + interval) mod 12.  The editors only ever pass
nonnegative parsed semitone offsets, so intervals are naturals here. -/
def getNotesFromIntervals (rootNote : String) (intervals : List Nat) : List String :=
  match NOTES.findIdx? (fun n => n == rootNote) with
  | none => []
  | some rootIndex =>
      intervals.map (fun interval => NOTES.getD ((rootIndex + interval) % 12) "")

/-- Embedded from apiService.ts `FretboardNote`: one fretboard cell as the
API reports it; is_in_chord is an optional boolean in the TS type. -/
structure FretboardNote where
  note : String
  is_in_scale : Bool
  is_root : Bool
  is_in_chord : Option Bool
deriving DecidableEq, Repr

/-- Embedded from the flag-based Fretboard renderer
(src/unnamed/part_014, renderFrets lines 21-26): the CSS classes of one
cell; in-chord is tested before in-scale, and root-note is appended when
the cell's is_root flag is set.  A missing is_in_chord is falsy in JS,
hence the getD false. -/
def fretClasses (note : FretboardNote) : List String :=
  ["fret"] ++
  (if note.is_in_chord.getD false then ["in-chord"]
   else if note.is_in_scale then ["in-scale"]
   else []) ++
  (if note.is_root then ["root-note"] else [])

/-- Modelled from the spec: NoteSpace.transpose (section 4.1) of the absent
backend module FretStudioBackend.py; returns (pitch + semitones) mod 12,
total on every integer semitone count. -/
def transpose (pitch : Nat) (semitones : Int) : Nat :=
  (((pitch : Int) + semitones) % 12).toNat

theorem transpose_nat_eq (p i : Nat) : transpose p (i : Int) = (p + i) % 12 := by
  unfold transpose
  omega

theorem NOTES_findIdx_self (root : Nat) (h : root < 12) :
    NOTES.findIdx? (fun n => n == NOTES.getD root "") = some root := by
  interval_cases root <;> rfl

theorem NOTES_getD_inj (a : Nat) (ha : a < 12) (b : Nat) (hb : b < 12)
    (h : NOTES.getD a "" = NOTES.getD b "") : a = b := by
  interval_cases a <;> interval_cases b <;> simp_all [NOTES]

/-- Claim C8: resolving the scale with root C and the Major interval set
[0,2,4,5,7,9,11] through the code's getNotesFromIntervals yields exactly
C, D, E, F, G, A, B. -/
theorem cMajor_resolution :
    getNotesFromIntervals "C" [0, 2, 4, 5, 7, 9, 11] =
      ["C", "D", "E", "F", "G", "A", "B"] := by
  rfl

/-- Claim C2: transpose is total for every pitch class and every integer
semitone count, returning (p + s) mod 12 reduced into [0,11]; on natural
fret counts it agrees with the frontend's (rootIndex + interval) mod 12
indexing, and transposing the open A string (pitch class 9) by 5 frets
yields pitch class 2, whose table entry is D. -/
theorem transpose_total_mod12 :
    (∀ (p : Nat) (s : Int), transpose p s < 12 ∧
        ((transpose p s : Int) = ((p : Int) + s) % 12)) ∧
    (∀ (p i : Nat), transpose p (i : Int) = (p + i) % 12) ∧
    transpose 9 5 = 2 ∧
    SHARP_NOTES.getD 9 "" = "A" ∧ SHARP_NOTES.getD (transpose 9 5) "" = "D" := by
  refine ⟨fun p s => ?_, fun p i => transpose_nat_eq p i, by rfl, by rfl, by rfl⟩
  unfold transpose
  omega

/-- The parse direction used by the frontend (claim C3): convert a possibly
flat spelling to sharps with unformatNote, then look the name up in the
canonical sharp-note table (JS indexOf, `none` standing for -1). -/
def parseNoteName (name : String) : Option Nat :=
  SHARP_NOTES.findIdx? (fun n => n == unformatNote name)

theorem lookup_flats_none (s : String) (h1 : s ≠ "Db") (h2 : s ≠ "Eb")
    (h3 : s ≠ "Gb") (h4 : s ≠ "Ab") (h5 : s ≠ "Bb") :
    FLAT_TO_SHARP.lookup s = none := by
  have b1 : (s == "Db") = false := by simp [h1]
  have b2 : (s == "Eb") = false := by simp [h2]
  have b3 : (s == "Gb") = false := by simp [h3]
  have b4 : (s == "Ab") = false := by simp [h4]
  have b5 : (s == "Bb") = false := by simp [h5]
  simp [FLAT_TO_SHARP, List.lookup, b1, b2, b3, b4, b5]

theorem lookup_sharps_none (s : String) (h1 : s ≠ "C#") (h2 : s ≠ "D#")
    (h3 : s ≠ "F#") (h4 : s ≠ "G#") (h5 : s ≠ "A#") :
    SHARP_TO_FLAT.lookup s = none := by
  have b1 : (s == "C#") = false := by simp [h1]
  have b2 : (s == "D#") = false := by simp [h2]
  have b3 : (s == "F#") = false := by simp [h3]
  have b4 : (s == "G#") = false := by simp [h4]
  have b5 : (s == "A#") = false := by simp [h5]
  simp [SHARP_TO_FLAT, List.lookup, b1, b2, b3, b4, b5]

/-- Claim C10: the spelling conversions are idempotent on every input string:
unformatNote twice equals unformatNote once, and formatNote twice under a
fixed accidental preference equals formatNote once. -/
theorem note_spelling_idempotent :
    (∀ s : String, unformatNote (unformatNote s) = unformatNote s) ∧
    (∀ (s : String) (pref : AccidentalType),
        formatNote (formatNote s pref) pref = formatNote s pref) := by
  constructor
  · intro s
    by_cases h1 : s = "Db"
    · subst h1; rfl
    by_cases h2 : s = "Eb"
    · subst h2; rfl
    by_cases h3 : s = "Gb"
    · subst h3; rfl
    by_cases h4 : s = "Ab"
    · subst h4; rfl
    by_cases h5 : s = "Bb"
    · subst h5; rfl
    have h : unformatNote s = s := by
      unfold unformatNote
      rw [lookup_flats_none s h1 h2 h3 h4 h5]
      rfl
    rw [h, h]
  · intro s pref
    cases pref with
    | sharps => rfl
    | flats =>
      by_cases h1 : s = "C#"
      · subst h1; rfl
      by_cases h2 : s = "D#"
      · subst h2; rfl
      by_cases h3 : s = "F#"
      · subst h3; rfl
      by_cases h4 : s = "G#"
      · subst h4; rfl
      by_cases h5 : s = "A#"
      · subst h5; rfl
      have h : formatNote s AccidentalType.flats = s := by
        unfold formatNote
        rw [lookup_sharps_none s h1 h2 h3 h4 h5]
      rw [h, h]

/-- Claim C1: for every root pitch class and every valid interval set
(distinct intervals within [0,11] containing 0), getNotesFromIntervals maps
each interval i to the note at transpose(root, i); the result has no
duplicate entries, so its size equals the number of distinct resulting
pitch classes and is at most the number of intervals. -/
theorem scale_resolution_distinct (root : Nat) (intervals : List Nat)
    (hroot : root < 12) (hnd : intervals.Nodup) (_h0 : 0 ∈ intervals)
    (hlt : ∀ i ∈ intervals, i < 12) :
    getNotesFromIntervals (NOTES.getD root "") intervals =
      intervals.map (fun (i : Nat) => NOTES.getD (transpose root (i : Int)) "") ∧
    (getNotesFromIntervals (NOTES.getD root "") intervals).dedup.length =
      (getNotesFromIntervals (NOTES.getD root "") intervals).length ∧
    (getNotesFromIntervals (NOTES.getD root "") intervals).length ≤
      intervals.length := by
  have hmain : getNotesFromIntervals (NOTES.getD root "") intervals =
      intervals.map (fun i => NOTES.getD ((root + i) % 12) "") := by
    unfold getNotesFromIntervals
    rw [NOTES_findIdx_self root hroot]
  have htr : (fun (i : Nat) => NOTES.getD (transpose root (i : Int)) "") =
      (fun (i : Nat) => NOTES.getD ((root + i) % 12) "") := by
    funext i
    rw [transpose_nat_eq]
  have hnodup : (intervals.map (fun i => NOTES.getD ((root + i) % 12) "")).Nodup := by
    refine List.Nodup.map_on ?_ hnd
    intro x hx y hy hxy
    have hx12 := hlt x hx
    have hy12 := hlt y hy
    have hmod := NOTES_getD_inj ((root + x) % 12) (by omega) ((root + y) % 12)
      (by omega) hxy
    omega
  refine ⟨by rw [hmain, htr], ?_, ?_⟩
  · rw [hmain, List.Nodup.dedup hnodup]
  · rw [hmain, List.length_map]

/-- Witness for C1 at root C and the Major scale interval set. -/
theorem scale_resolution_distinct_witness :
    (0 : Nat) < 12 ∧ ([0, 2, 4, 5, 7, 9, 11] : List Nat).Nodup ∧
    0 ∈ ([0, 2, 4, 5, 7, 9, 11] : List Nat) ∧
    getNotesFromIntervals (NOTES.getD 0 "") [0, 2, 4, 5, 7, 9, 11] =
      ([0, 2, 4, 5, 7, 9, 11] : List Nat).map
        (fun (i : Nat) => NOTES.getD (transpose 0 (i : Int)) "") ∧
    (getNotesFromIntervals (NOTES.getD 0 "") [0, 2, 4, 5, 7, 9, 11]).dedup.length =
      (getNotesFromIntervals (NOTES.getD 0 "") [0, 2, 4, 5, 7, 9, 11]).length ∧
    (getNotesFromIntervals (NOTES.getD 0 "") [0, 2, 4, 5, 7, 9, 11]).length ≤
      ([0, 2, 4, 5, 7, 9, 11] : List Nat).length := by
  have h := scale_resolution_distinct 0 [0, 2, 4, 5, 7, 9, 11]
    (by norm_num) (by decide) (by decide) (by decide)
  exact ⟨by norm_num, by decide, by decide, h.1, h.2.1, h.2.2⟩

/-- Claim C3: for each of the 12 pitch classes and both spelling
preferences, parsing the display name produced by the spelling tables (or
by formatNote) round-trips to the same pitch class. -/
theorem spell_parse_roundtrip (p : Nat) (hp : p < 12) :
    parseNoteName ((getNoteNames AccidentalType.sharps).getD p "") = some p ∧
    parseNoteName ((getNoteNames AccidentalType.flats).getD p "") = some p ∧
    parseNoteName (formatNote (SHARP_NOTES.getD p "") AccidentalType.sharps) = some p ∧
    parseNoteName (formatNote (SHARP_NOTES.getD p "") AccidentalType.flats) = some p := by
  interval_cases p <;> exact ⟨rfl, rfl, rfl, rfl⟩

/-- Witness for C3 at pitch class 1 (C sharp / D flat). -/
theorem spell_parse_roundtrip_witness :
    (1 : Nat) < 12 ∧
    parseNoteName ((getNoteNames AccidentalType.sharps).getD 1 "") = some 1 ∧
    parseNoteName ((getNoteNames AccidentalType.flats).getD 1 "") = some 1 ∧
    parseNoteName (formatNote (SHARP_NOTES.getD 1 "") AccidentalType.sharps) = some 1 ∧
    parseNoteName (formatNote (SHARP_NOTES.getD 1 "") AccidentalType.flats) = some 1 := by
  have h := spell_parse_roundtrip 1 (by norm_num)
  exact ⟨by norm_num, h.1, h.2.1, h.2.2.1, h.2.2.2⟩

/-- Claim C9: for every root string that is not one of the 12 sharp-canonical
note names (flat spellings, lowercase names, arbitrary invalid strings) and
every interval list, getNotesFromIntervals returns the empty list. -/
theorem unknown_root_resolves_empty (rootNote : String) (intervals : List Nat)
    (h : rootNote ∉ NOTES) :
    getNotesFromIntervals rootNote intervals = [] := by
  unfold getNotesFromIntervals
  have hnone : NOTES.findIdx? (fun n => n == rootNote) = none := by
    rw [List.findIdx?_eq_none_iff]
    intro x hx
    simp only [beq_eq_false_iff_ne]
    exact fun hxe => h (hxe ▸ hx)
  rw [hnone]

/-- Witness for C9 at the flat spelling D flat and the lowercase name c. -/
theorem unknown_root_resolves_empty_witness :
    "Db" ∉ NOTES ∧ getNotesFromIntervals "Db" [0, 4, 7] = [] ∧
    "c" ∉ NOTES ∧ getNotesFromIntervals "c" [0, 2, 4] = [] := by
  have hdb : "Db" ∉ NOTES := by decide
  have hlc : "c" ∉ NOTES := by decide
  exact ⟨hdb, unknown_root_resolves_empty "Db" [0, 4, 7] hdb,
    hlc, unknown_root_resolves_empty "c" [0, 2, 4] hlc⟩

/-- Counterexample to claim C5: a cell that is in-chord (C is in the chord
set) and equal to the chord root C is nevertheless marked scale-root, not
chord-root, when it also equals the scale root — getNoteClass tests the
scale root first, so scale-root marking takes precedence over chord-root
marking, contrary to the claim. -/
theorem getNoteClass_scaleRoot_precedence_cex :
    "C" ∈ (["C", "E", "G"] : List String) ∧
    "chord-root" ∉ getNoteClassList "C" ["C", "E", "G"] (some "C") (some "C") ∧
    "scale-root" ∈ getNoteClassList "C" ["C", "E", "G"] (some "C") (some "C") ∧
    getNoteClass "C" ["C", "E", "G"] (some "C") (some "C") = "scale-root in-scale" := by
  refine ⟨by decide, by decide, by decide, rfl⟩

/-- Claim C5 as amended: in the flag-based Fretboard renderer a cell that is
in-chord is classed in-chord and not in-scale (the is_in_scale flag staying
available in the cell data), while in getNoteClass the scale-root marking
takes precedence: a note equal to the scale root is always classed
scale-root regardless of the chord root, and chord-root marking applies
exactly when the note is not the scale root but is the chord root. -/
theorem annotation_precedence_amended :
    (∀ n : FretboardNote, n.is_in_chord = some true →
        "in-chord" ∈ fretClasses n ∧ "in-scale" ∉ fretClasses n) ∧
    (∀ (note : String) (validNotes : List String) (chordRootNote : Option String),
        getNoteClassList note validNotes (some note) chordRootNote =
          "scale-root" :: (if validNotes.contains note then ["in-scale"] else [])) ∧
    (∀ (note : String) (validNotes : List String)
        (scaleRootNote chordRootNote : Option String),
        scaleRootNote ≠ some note → chordRootNote = some note →
        "chord-root" ∈ getNoteClassList note validNotes scaleRootNote chordRootNote) := by
  refine ⟨?_, ?_, ?_⟩
  · intro n h
    cases hroot : n.is_root <;> simp [fretClasses, h, hroot]
  · intro note validNotes chordRootNote
    simp [getNoteClassList]
  · intro note validNotes scaleRootNote chordRootNote hne heq
    have hs : (scaleRootNote == some note) = false := by
      simpa using hne
    simp [getNoteClassList, hs, heq]

/-- Witness for the amended C5 at concrete cells: a D cell flagged in-chord,
the scale-root cell C with chord root also C, and a G chord-root cell inside
a C-rooted scale context. -/
theorem annotation_precedence_amended_witness :
    ("in-chord" ∈ fretClasses ⟨"D", true, false, some true⟩ ∧
      "in-scale" ∉ fretClasses ⟨"D", true, false, some true⟩) ∧
    getNoteClassList "C" ["C", "E", "G"] (some "C") (some "C") =
      "scale-root" :: (if (["C", "E", "G"] : List String).contains "C"
        then ["in-scale"] else []) ∧
    "chord-root" ∈ getNoteClassList "G" ["G", "B", "D"] (some "C") (some "G") := by
  refine ⟨annotation_precedence_amended.1 ⟨"D", true, false, some true⟩ rfl,
    annotation_precedence_amended.2.1 "C" ["C", "E", "G"] (some "C"),
    annotation_precedence_amended.2.2 "G" ["G", "B", "D"] (some "C") (some "G")
      (by decide) rfl⟩

deriving instance DecidableEq for Except

/-- ASCII lowercase of one character, for the case-insensitive matching the
spec prescribes for parse. -/
def toLowerChar (c : Char) : Char :=
  if 'A' ≤ c ∧ c ≤ 'Z' then Char.ofNat (c.toNat + 32) else c

/-- ASCII lowercase of a string (structural, so proofs can evaluate it). -/
def toLowerStr (s : String) : String :=
  String.mk (s.data.map toLowerChar)

/-- The typed error of NoteSpace.parse (spec section 7). -/
inductive NoteError
| invalidNoteName
deriving DecidableEq, Repr

/-- Modelled from the spec: NoteSpace.parse (section 4.1) of the absent
backend module FretStudioBackend.py: accepts the sharp or the flat spelling
of each of the 12 pitch classes, compared case-insensitively, and fails
with InvalidNoteName for every other string. -/
def parse (name : String) : Except NoteError Nat :=
  match (List.range 12).find? (fun p =>
      toLowerStr name == toLowerStr (SHARP_NOTES.getD p "") ||
      toLowerStr name == toLowerStr (FLAT_NOTES.getD p "")) with
  | some p => Except.ok p
  | none => Except.error NoteError.invalidNoteName

/-- Claim C4: parse accepts the sharp and the flat spelling of each pitch
class, also in lowercase, and returns the typed InvalidNoteName error for
every string matching no canonical spelling case-insensitively. -/
theorem parse_canonical_spellings :
    (∀ p : Nat, p < 12 →
        parse (SHARP_NOTES.getD p "") = Except.ok p ∧
        parse (FLAT_NOTES.getD p "") = Except.ok p ∧
        parse (toLowerStr (SHARP_NOTES.getD p "")) = Except.ok p ∧
        parse (toLowerStr (FLAT_NOTES.getD p "")) = Except.ok p) ∧
    (∀ s : String,
        (∀ p : Nat, p < 12 →
            toLowerStr s ≠ toLowerStr (SHARP_NOTES.getD p "") ∧
            toLowerStr s ≠ toLowerStr (FLAT_NOTES.getD p "")) →
        parse s = Except.error NoteError.invalidNoteName) := by
  constructor
  · intro p hp
    interval_cases p <;> exact ⟨by decide, by decide, by decide, by decide⟩
  · intro s hs
    unfold parse
    have hnone : (List.range 12).find? (fun p =>
        toLowerStr s == toLowerStr (SHARP_NOTES.getD p "") ||
        toLowerStr s == toLowerStr (FLAT_NOTES.getD p "")) = none := by
      rw [List.find?_eq_none]
      intro p hp
      have hplt : p < 12 := List.mem_range.mp hp
      have hboth := hs p hplt
      simp only [Bool.or_eq_true, beq_iff_eq, not_or]
      exact hboth
    rw [hnone]

/-- Witness for C4 at the lowercase flat spelling db and the invalid name H. -/
theorem parse_canonical_spellings_witness :
    (1 : Nat) < 12 ∧ parse (toLowerStr (FLAT_NOTES.getD 1 "")) = Except.ok 1 ∧
    parse "H" = Except.error NoteError.invalidNoteName := by
  refine ⟨by norm_num, (parse_canonical_spellings.1 1 (by norm_num)).2.2.2,
    parse_canonical_spellings.2 "H" ?_⟩
  intro p hp
  interval_cases p <;> exact ⟨by decide, by decide⟩

/-- One fingering entry of a voicing (spec section 3): fret -1 is muted,
0 open, positive fretted; finger 0 is unspecified. -/
structure FrettedNote where
  stringIndex : Nat
  fret : Int
  finger : Nat
deriving DecidableEq, Repr

/-- The voicing-validation failures of spec section 7. -/
inductive VoicingError
| stringIndexOutOfRange
| duplicateStringEntry
| noteNotInChord
deriving DecidableEq, Repr

/-- The per-string statuses of a successful validation (spec section 4.5);
openPlain stands for the spec's plain open status. -/
inductive StringStatus
| muted
| openRoot
| openPlain
| fretted (finger : Nat)
deriving DecidableEq, Repr

/-- Modelled from the spec: the per-string status of VoicingValidator
(section 4.5) of the absent backend: muted for fret -1, open split on
whether the open pitch equals the chord root (the root is passed by the
caller), fretted with the finger otherwise. -/
def stringStatus (tuning : List Nat) (chordRoot : Nat) (e : FrettedNote) :
    StringStatus :=
  if e.fret < 0 then StringStatus.muted
  else if e.fret = 0 then
    (if tuning.getD e.stringIndex 0 = chordRoot then StringStatus.openRoot
     else StringStatus.openPlain)
  else StringStatus.fretted e.finger

/-- Modelled from the spec: VoicingValidator.validate (section 4.5) of the
absent backend module FretStudioBackend.py: fail with
StringIndexOutOfRange, then DuplicateStringEntry, then NoteNotInChord when
any sounded note (fret at least 0) transposes outside the chord's
pitch-class set; otherwise return the per-string status list. -/
def validate (tuning chordSet : List Nat) (chordRoot : Nat)
    (fingering : List FrettedNote) : Except VoicingError (List StringStatus) :=
  if ∃ e ∈ fingering, tuning.length ≤ e.stringIndex then
    Except.error VoicingError.stringIndexOutOfRange
  else if ¬ (fingering.map (fun e => e.stringIndex)).Nodup then
    Except.error VoicingError.duplicateStringEntry
  else if ∃ e ∈ fingering, 0 ≤ e.fret ∧
      transpose (tuning.getD e.stringIndex 0) e.fret ∉ chordSet then
    Except.error VoicingError.noteNotInChord
  else Except.ok (fingering.map (stringStatus tuning chordRoot))

/-- Claim C6: a voicing whose string indices are in range and distinct is
rejected with NoteNotInChord whenever any sounded entry transposes outside
the chord set, every successfully validated voicing has all its sounded
pitches inside the chord set, and a fingering sounding F sharp against the
C Major chord set C, E, G on standard tuning fails with NoteNotInChord. -/
theorem validate_noteNotInChord (tuning chordSet : List Nat) (chordRoot : Nat)
    (fingering : List FrettedNote)
    (hidx : ∀ e ∈ fingering, e.stringIndex < tuning.length)
    (hnd : (fingering.map (fun e => e.stringIndex)).Nodup) :
    ((∃ e ∈ fingering, 0 ≤ e.fret ∧
        transpose (tuning.getD e.stringIndex 0) e.fret ∉ chordSet) →
      validate tuning chordSet chordRoot fingering =
        Except.error VoicingError.noteNotInChord) ∧
    (∀ res, validate tuning chordSet chordRoot fingering = Except.ok res →
      ∀ e ∈ fingering, 0 ≤ e.fret →
        transpose (tuning.getD e.stringIndex 0) e.fret ∈ chordSet) ∧
    validate [4, 9, 2, 7, 11, 4] [0, 4, 7] 0 [⟨0, 2, 2⟩] =
      Except.error VoicingError.noteNotInChord := by
  have h1 : ¬ ∃ e ∈ fingering, tuning.length ≤ e.stringIndex := by
    push_neg
    exact hidx
  refine ⟨?_, ?_, by decide⟩
  · intro hex
    unfold validate
    rw [if_neg h1, if_neg (not_not_intro hnd), if_pos hex]
  · intro res hok e he hfret
    by_contra hmem
    unfold validate at hok
    rw [if_neg h1, if_neg (not_not_intro hnd)] at hok
    by_cases h3 : ∃ e ∈ fingering, 0 ≤ e.fret ∧
        transpose (tuning.getD e.stringIndex 0) e.fret ∉ chordSet
    · rw [if_pos h3] at hok
      exact Except.noConfusion hok
    · exact h3 ⟨e, he, hfret, hmem⟩

/-- Witness for C6: the F sharp fingering on the low E string against the C
Major chord set, on standard tuning. -/
theorem validate_noteNotInChord_witness :
    (∀ e ∈ ([⟨0, 2, 2⟩] : List FrettedNote),
        e.stringIndex < ([4, 9, 2, 7, 11, 4] : List Nat).length) ∧
    (([⟨0, 2, 2⟩] : List FrettedNote).map (fun e => e.stringIndex)).Nodup ∧
    validate [4, 9, 2, 7, 11, 4] [0, 4, 7] 0 [⟨0, 2, 2⟩] =
      Except.error VoicingError.noteNotInChord := by
  have hidx : ∀ e ∈ ([⟨0, 2, 2⟩] : List FrettedNote),
      e.stringIndex < ([4, 9, 2, 7, 11, 4] : List Nat).length := by decide
  have hnd : (([⟨0, 2, 2⟩] : List FrettedNote).map
      (fun e => e.stringIndex)).Nodup := by decide
  refine ⟨hidx, hnd,
    (validate_noteNotInChord [4, 9, 2, 7, 11, 4] [0, 4, 7] 0 [⟨0, 2, 2⟩]
      hidx hnd).1 ?_⟩
  exact ⟨⟨0, 2, 2⟩, by decide, by decide, by decide⟩

/-- A chord type of the catalog: a name and an interval set
(spec sections 3 and 4.3). -/
structure ChordType where
  name : String
  intervals : List Nat
deriving DecidableEq, Repr

/-- Modelled from the spec: ScaleResolver.resolveScale (section 4.2) of the
absent backend: map each interval to transpose(root, interval); the list
keeps the ascending-degree order of the interval set. -/
def resolveScale (root : Nat) (intervals : List Nat) : List Nat :=
  intervals.map (fun (i : Nat) => transpose root (i : Int))

/-- Modelled from the spec: ChordResolver.resolveChord (section 4.3),
identical mechanics to resolveScale. -/
def resolveChord (root : Nat) (intervals : List Nat) : List Nat :=
  intervals.map (fun (i : Nat) => transpose root (i : Int))

/-- Modelled from the spec: ChordResolver.diatonicChords (section 4.3) of
the absent backend: for each scale pitch class in ascending degree order,
for each chord type in catalog order, emit the pair exactly when the
candidate chord's pitch classes all lie inside the scale. -/
def diatonicChords (scaleRoot : Nat) (scaleIntervals : List Nat)
    (catalog : List ChordType) : List (Nat × String) :=
  (resolveScale scaleRoot scaleIntervals).flatMap (fun r =>
    catalog.filterMap (fun t =>
      if (resolveChord r t.intervals).all
          (fun p => (resolveScale scaleRoot scaleIntervals).contains p) then
        some (r, t.name)
      else none))

/-- The fit test of diatonicChords: the candidate chord's pitch classes all
lie inside the resolved scale. -/
def chordFits (scaleRoot : Nat) (scaleIntervals : List Nat) (r : Nat)
    (t : ChordType) : Bool :=
  (resolveChord r t.intervals).all
    (fun p => (resolveScale scaleRoot scaleIntervals).contains p)

theorem flatMap_filter_root (f : Nat → List (Nat × String))
    (hf : ∀ r q, q ∈ f r → q.1 = r) :
    ∀ (roots : List Nat), roots.Nodup → ∀ r ∈ roots,
      (roots.flatMap f).filter (fun q => q.1 == r) = f r := by
  intro roots
  induction roots with
  | nil =>
    intro _ r hr
    cases hr
  | cons a l ih =>
    intro hnd r hr
    have hnal := List.nodup_cons.mp hnd
    rw [List.flatMap_cons, List.filter_append]
    rcases List.mem_cons.mp hr with heq | hmem
    · subst heq
      have hself : (f r).filter (fun q => q.1 == r) = f r := by
        apply List.filter_eq_self.mpr
        intro q hq
        simp [hf r q hq]
      have hrest : (l.flatMap f).filter (fun q => q.1 == r) = [] := by
        apply List.filter_eq_nil_iff.mpr
        intro q hq
        obtain ⟨b, hb, hqb⟩ := List.mem_flatMap.mp hq
        have hbr : b ≠ r := fun h => hnal.1 (h ▸ hb)
        simp [hf b q hqb, hbr]
      rw [hself, hrest, List.append_nil]
    · have har : a ≠ r := fun h => hnal.1 (h ▸ hmem)
      have hhead : (f a).filter (fun q => q.1 == r) = [] := by
        apply List.filter_eq_nil_iff.mpr
        intro q hq
        simp [hf a q hq, har]
      rw [hhead, List.nil_append, ih hnal.2 r hmem]

/-- Claim C7: diatonicChords for the C Major scale with the catalog
[Major, Minor] lists chords by ascending scale degree with C Major first,
then D Minor, then E Minor; and for any scale and any root degree at which
both catalog entries fit, the first catalog entry is emitted immediately
before the second at that degree (catalog-order tie-break). -/
theorem diatonicChords_order :
    diatonicChords 0 [0, 2, 4, 5, 7, 9, 11]
        [⟨"Major", [0, 4, 7]⟩, ⟨"Minor", [0, 3, 7]⟩] =
      [(0, "Major"), (2, "Minor"), (4, "Minor"), (5, "Major"),
        (7, "Major"), (9, "Minor")] ∧
    (∀ (scaleRoot : Nat) (scaleIntervals : List Nat) (tMajor tMinor : ChordType),
      (resolveScale scaleRoot scaleIntervals).Nodup →
      ∀ r ∈ resolveScale scaleRoot scaleIntervals,
      chordFits scaleRoot scaleIntervals r tMajor = true →
      chordFits scaleRoot scaleIntervals r tMinor = true →
      (diatonicChords scaleRoot scaleIntervals [tMajor, tMinor]).filter
          (fun q => q.1 == r) = [(r, tMajor.name), (r, tMinor.name)]) := by
  constructor
  · decide
  · intro scaleRoot scaleIntervals tM tm hnd r hr hM hm
    unfold diatonicChords
    rw [flatMap_filter_root _ ?_ _ hnd r hr]
    · simp only [chordFits] at hM hm
      simp only [List.filterMap_cons, List.filterMap_nil]
      rw [if_pos hM, if_pos hm]
    · intro r' q hq
      rcases List.mem_filterMap.mp hq with ⟨t, _, hgt⟩
      split at hgt
      · injection hgt with h
        rw [← h]
      · exact Option.noConfusion hgt

/-- Witness for C7's tie-break clause at the chromatic scale, where both the
Major and the Minor chord type fit at degree 0. -/
theorem diatonicChords_order_witness :
    (resolveScale 0 (List.range 12)).Nodup ∧
    0 ∈ resolveScale 0 (List.range 12) ∧
    chordFits 0 (List.range 12) 0 ⟨"Major", [0, 4, 7]⟩ = true ∧
    chordFits 0 (List.range 12) 0 ⟨"Minor", [0, 3, 7]⟩ = true ∧
    (diatonicChords 0 (List.range 12)
        [⟨"Major", [0, 4, 7]⟩, ⟨"Minor", [0, 3, 7]⟩]).filter
      (fun q => q.1 == 0) = [(0, "Major"), (0, "Minor")] := by
  have hnodup : (resolveScale 0 (List.range 12)).Nodup := by decide
  have hmem : 0 ∈ resolveScale 0 (List.range 12) := by decide
  have hfitM : chordFits 0 (List.range 12) 0 ⟨"Major", [0, 4, 7]⟩ = true := by
    decide
  have hfitm : chordFits 0 (List.range 12) 0 ⟨"Minor", [0, 3, 7]⟩ = true := by
    decide
  exact ⟨hnodup, hmem, hfitM, hfitm,
    diatonicChords_order.2 0 (List.range 12) ⟨"Major", [0, 4, 7]⟩
      ⟨"Minor", [0, 3, 7]⟩ hnodup 0 hmem hfitM hfitm⟩

end FretStudio
